import Mathlib

/-
Verification of the Company Atlas ingestion / enrichment engine.

The Python source (src/pipelines/ingestion/) is shallowly embedded here:
dictionaries of company data become finite maps from a `Field` enumeration
to optional Python values, pandas rows become association lists from column
names to values, and Python exceptions become `Except`.  Python `float`s are
modelled by exact rationals: none of the verified properties depend on
rounding, only on which arithmetic operation the code selects.
-/

set_option autoImplicit false

namespace CompanyAtlas

/-- A Python value as it occurs in the company dictionaries: `none` models
both Python `None` and a pandas `NaN`/null cell. -/
inductive PyVal where
  | none
  | str (s : String)
  | int (n : Int)
  | rat (q : ℚ)
deriving DecidableEq, Repr

/-- Python truthiness of a value (`bool(v)`). -/
def PyVal.truthy : PyVal → Bool
  | .none => false
  | .str s => s ≠ ""
  | .int n => n ≠ 0
  | .rat q => q ≠ 0

/-- The canonical record fields of the unified schema (spec section 3). -/
inductive Field where
  | company_name
  | domain
  | industry
  | country
  | employee_count
  | revenue
  | founded_year
  | source_system
  | last_updated_at
deriving DecidableEq, Repr

/-- A company dictionary: `Option.none` means the key is absent from the
dict, `some PyVal.none` means the key is present with value `None`. -/
def Record := Field → Option PyVal

/-- Truthiness of `d.get(key)`: an absent key yields Python `None`, which is
falsy. -/
def gTruthy (o : Option PyVal) : Bool :=
  match o with
  | Option.none => false
  | some v => v.truthy

/-- Functional update of a record at one field (`result[f] = v`). -/
def Record.set (r : Record) (f : Field) (v : Option PyVal) : Record :=
  fun g => if g = f then v else r g

namespace WebScraper

/-- The merge loop of `WebScraper.scrape_company_info`
(web_scraper.py lines 227-230):

    for key, value in wiki_data.items():
        if not result.get(key) and value:
            result[key] = value

Each key of the partial dict `p` is written into `r` only when `r`'s current
value for it is falsy and `p`'s value is truthy. -/
def mergeWiki (r p : Record) : Record :=
  fun f =>
    match p f with
    | Option.none => r f
    | some v => if !gTruthy (r f) && v.truthy then some v else r f

/-- `WebScraper.scrape_company_info` (web_scraper.py lines 219-239): merge
the scraped partial record into `existing_data`, then apply the defaults

    result['company_name'] = result.get('company_name') or company_name
    result['source_system'] = result.get('source_system') or 'web_scraper'
    result['last_updated_at'] = datetime.utcnow().isoformat()

`now` stands for the `datetime.utcnow().isoformat()` string. -/
def scrape_company_info (now company_name : String) (r p : Record) : Record :=
  let m := mergeWiki r p
  let m1 := m.set .company_name
    (if gTruthy (m .company_name) then m .company_name else some (.str company_name))
  let m2 := m1.set .source_system
    (if gTruthy (m1 .source_system) then m1 .source_system else some (.str "web_scraper"))
  m2.set .last_updated_at (some (.str now))

end WebScraper

/-- If the existing value at a field is truthy, the wiki-merge loop leaves it
unchanged. -/
theorem mergeWiki_keeps_truthy (r p : Record) (f : Field)
    (h : gTruthy (r f) = true) : WebScraper.mergeWiki r p f = r f := by
  unfold WebScraper.mergeWiki
  cases hp : p f with
  | none => rfl
  | some v => simp [h]

/-- C10: the enrichment merge loop never writes a falsy (null, empty-string
or zero) partial value into the record: whenever the partial's value for a
field is falsy or absent, the field keeps its prior value — even when that
prior value is itself null — and any field the loop does change receives a
truthy partial value over a falsy prior value. -/
theorem merge_never_writes_falsy (r p : Record) (f : Field) :
    (gTruthy (p f) = false → WebScraper.mergeWiki r p f = r f) ∧
    (WebScraper.mergeWiki r p f ≠ r f →
      ∃ v, p f = some v ∧ v.truthy = true ∧
        WebScraper.mergeWiki r p f = some v ∧ gTruthy (r f) = false) := by
  constructor
  · intro h
    unfold WebScraper.mergeWiki
    cases hp : p f with
    | none => rfl
    | some v =>
      have hv : v.truthy = false := by
        simpa [gTruthy, hp] using h
      simp [hv]
  · intro h
    unfold WebScraper.mergeWiki at h ⊢
    cases hp : p f with
    | none => simp [hp] at h
    | some v =>
      simp only [hp] at h ⊢
      by_cases hc : (!gTruthy (r f) && v.truthy) = true
      · refine ⟨v, rfl, ?_, ?_, ?_⟩
        · exact (Bool.and_elim_right hc)
        · simp [hc]
        · have := Bool.and_elim_left hc
          simpa using this
      · simp [hc] at h

/-- A record whose `industry` is the empty string (present, non-null) and
whose other fields are null: used to refute C1 as literally stated. -/
def rIndustryEmpty : Record :=
  fun f =>
    match f with
    | .industry => some (.str "")
    | .company_name => some (.str "Acme Co")
    | _ => some PyVal.none

/-- A partial enrichment result carrying a non-empty industry. -/
def pIndustrySoftware : Record :=
  fun f =>
    match f with
    | .industry => some (.str "Software")
    | _ => Option.none

/-- C1 as stated is false: `industry` of the existing record is the empty
string — non-null — yet the merge overwrites it with the partial's value,
because the code tests Python truthiness (`if not result.get(key)`), not
nullness. -/
theorem merge_overwrites_nonnull_falsy :
    rIndustryEmpty .industry = some (.str "") ∧
    rIndustryEmpty .industry ≠ some PyVal.none ∧
    rIndustryEmpty .industry ≠ Option.none ∧
    WebScraper.scrape_company_info "2024-01-01T00:00:00" "Acme Co"
      rIndustryEmpty pIndustrySoftware .industry = some (.str "Software") := by
  refine ⟨rfl, by decide, by decide, rfl⟩

/-- C1 amended: for every canonical field other than `last_updated_at`
(which `scrape_company_info` always overwrites with the merge timestamp),
the merge keeps the existing value whenever that value is truthy
(non-null and non-empty / non-zero); only falsy or absent fields can be
filled from the partial record, and a filled value is always truthy, so a
field never regresses to null. -/
theorem merge_fill_only_if_falsy (now name : String) (r p : Record) (f : Field)
    (hf : f ≠ .last_updated_at) (h : gTruthy (r f) = true) :
    WebScraper.scrape_company_info now name r p f = r f := by
  have hm := mergeWiki_keeps_truthy r p f h
  unfold WebScraper.scrape_company_info
  cases f with
  | last_updated_at => exact absurd rfl hf
  | company_name => simp [Record.set, hm, h]
  | source_system => simp [Record.set, hm, h]
  | domain => simp [Record.set, hm]
  | industry => simp [Record.set, hm]
  | country => simp [Record.set, hm]
  | employee_count => simp [Record.set, hm]
  | revenue => simp [Record.set, hm]
  | founded_year => simp [Record.set, hm]

/-- Witness for the amended C1 theorem at a concrete record. -/
theorem merge_fill_only_if_falsy_witness :
    WebScraper.scrape_company_info "t0" "Acme Co"
      rIndustryEmpty pIndustrySoftware .company_name = some (.str "Acme Co") := by
  have h := merge_fill_only_if_falsy "t0" "Acme Co"
    rIndustryEmpty pIndustrySoftware .company_name (by decide) (by decide)
  exact h.trans rfl

/-- Witness for the C10 theorem at a concrete record: a falsy (explicitly
null) partial value leaves the field untouched. -/
theorem merge_never_writes_falsy_witness :
    WebScraper.mergeWiki rIndustryEmpty
      (fun _ => some PyVal.none) .founded_year = rIndustryEmpty .founded_year := by
  exact (merge_never_writes_falsy rIndustryEmpty
    (fun _ => some PyVal.none) .founded_year).1 (by decide)

/- ### Tabular rows and the schema normalizers -/

/-- ASCII lower-casing of one character (`str.lower()`). -/
def lowerChar (c : Char) : Char :=
  if 'A' ≤ c && c ≤ 'Z' then Char.ofNat (c.toNat + 32) else c

/-- ASCII upper-casing of one character (`str.upper()`). -/
def upperChar (c : Char) : Char :=
  if 'a' ≤ c && c ≤ 'z' then Char.ofNat (c.toNat - 32) else c

/-- `str.lower()`. -/
def lowerStr (s : String) : String := (s.toList.map lowerChar).asString

/-- `str.upper()`. -/
def upperStr (s : String) : String := (s.toList.map upperChar).asString

/-- `str.strip()`: drop leading and trailing whitespace. -/
def stripChars (cs : List Char) : List Char :=
  ((cs.dropWhile Char.isWhitespace).reverse.dropWhile Char.isWhitespace).reverse

/-- `str.strip()` on a string. -/
def pyStrip (s : String) : String := (stripChars s.toList).asString

/-- A raw tabular row: an association list from column names to values.
Column order models pandas column order; duplicate labels can arise after a
rename collision, exactly as in pandas. -/
abbrev Row := List (String × PyVal)

/-- The column labels of a row. -/
def keysOf (r : Row) : List String := r.map (fun kv => kv.1)

/-- Is a column label present? -/
def hasKey (c : String) (r : Row) : Bool := r.any (fun kv => kv.1 == c)

/-- Value of the first column with a given label (pandas lookup). -/
def lookupV (c : String) (r : Row) : Option PyVal :=
  (r.find? (fun kv => kv.1 == c)).map (fun kv => kv.2)

/-- `df.rename(columns=rename_dict)` where `rename_dict` maps a column to
`target(col.lower().strip())` when that is defined and keeps the column name
otherwise. -/
def renameRow (target : String → Option String) (r : Row) : Row :=
  r.map (fun kv => ((target (pyStrip (lowerStr kv.1))).getD kv.1, kv.2))

/-- `for col in cols: if col not in df.columns: df[col] = None` — appends a
null column for each listed column that is missing. -/
def ensureCols (cols : List String) (r : Row) : Row :=
  cols.foldl (fun acc c => if hasKey c acc then acc else acc ++ [(c, PyVal.none)]) r

/-- `df[c] = v`: overwrite every column labelled `c`, or append it. -/
def setCol (c : String) (v : PyVal) (r : Row) : Row :=
  if hasKey c r then r.map (fun kv => if kv.1 == c then (c, v) else kv)
  else r ++ [(c, v)]

/-- `df[c] = df[c].map(f)`: transform the values of every column labelled
`c`, leaving other columns untouched. -/
def mapCol (c : String) (f : PyVal → PyVal) (r : Row) : Row :=
  r.map (fun kv => if kv.1 == c then (kv.1, f kv.2) else kv)

/-- `df[[col for col in cols if col in df.columns]]`: projection onto the
listed columns, skipping the ones that are absent. -/
def selectCols (cols : List String) (r : Row) : Row :=
  cols.filterMap (fun c => (r.find? (fun kv => kv.1 == c)).map (fun kv => (c, kv.2)))

/-- Does `hay` start with `needle`? -/
def listLeads : List Char → List Char → Bool
  | [], _ => true
  | _ :: _, [] => false
  | a :: as, b :: bs => a == b && listLeads as bs

/-- Does `hay` contain `needle` as a contiguous run (Python `in`)? -/
def containsSeq : List Char → List Char → Bool
  | needle, [] => needle.isEmpty
  | needle, c :: rest => listLeads needle (c :: rest) || containsSeq needle rest

/-- Python `needle in hay` on strings. -/
def strContains (hay needle : String) : Bool := containsSeq needle.toList hay.toList

/-- `str(v)` / pandas `astype(str)` of one cell; a null cell prints as the
string `"None"` (the normalizers later test for exactly that string). -/
def astypeStr : PyVal → String
  | .none => "None"
  | .str s => s
  | .int n => toString n
  | .rat q => toString q

/-- Numeric value of a digit run. -/
def digitsToNat (cs : List Char) : Nat := cs.foldl (fun n c => n * 10 + (c.toNat - 48)) 0

/-- Python `float()` on a run of digits, periods and nothing else (the shape
the revenue path produces after commas are removed): at most one period and
at least one digit, otherwise a `ValueError` (here: `Option.none`).
Exponent and sign forms cannot occur in that input and are not modelled. -/
def floatOfRun (cs : List Char) : Option ℚ :=
  match cs.splitOn '.' with
  | [as] =>
    if as.all Char.isDigit && !as.isEmpty then some ((digitsToNat as : ℚ))
    else Option.none
  | [as, bs] =>
    if as.all Char.isDigit && bs.all Char.isDigit && !(as.isEmpty && bs.isEmpty) then
      some ((digitsToNat as : ℚ) + (digitsToNat bs : ℚ) / ((10 : ℚ) ^ bs.length))
    else Option.none
  | _ => Option.none

/-- A decimal literal with an optional sign. -/
def parseSigned (cs : List Char) : Option ℚ :=
  match cs with
  | '-' :: rest => (floatOfRun rest).map (fun q => -q)
  | '+' :: rest => floatOfRun rest
  | _ => floatOfRun cs

/-- Pack a parse result the way `pd.to_numeric` does: an integral value
becomes an integer, a fractional one a float, a failed parse null. -/
def ratToPy : Option ℚ → PyVal
  | Option.none => .none
  | some q => if q.den = 1 then .int q.num else .rat q

/-- `pd.to_numeric(col, errors='coerce')` on one cell: numbers pass through,
a string is parsed as a decimal literal, anything unparseable becomes null
(NaN) — never an error. -/
def to_numeric : PyVal → PyVal
  | .none => .none
  | .int n => .int n
  | .rat q => .rat q
  | .str s => ratToPy (parseSigned (pyStrip s).toList)

/-- The column-name mapping table shared by
`Fortune1000Ingestion.normalize_schema` (fortune1000_ingestion.py lines
108-131) and `normalize_schema` in download_datasets.py (lines 157-180);
the two tables are identical. -/
def column_mapping : String → Option String := fun c =>
  match c with
  | "name" => some "company_name"
  | "company" => some "company_name"
  | "company_name" => some "company_name"
  | "website" => some "domain"
  | "url" => some "domain"
  | "domain" => some "domain"
  | "industry" => some "industry"
  | "sector" => some "industry"
  | "industry_type" => some "industry"
  | "country" => some "country"
  | "country_code" => some "country"
  | "location" => some "country"
  | "employees" => some "employee_count"
  | "employee_count" => some "employee_count"
  | "num_employees" => some "employee_count"
  | "revenue" => some "revenue"
  | "revenues" => some "revenue"
  | "annual_revenue" => some "revenue"
  | "founded" => some "founded_year"
  | "founded_year" => some "founded_year"
  | "year_founded" => some "founded_year"
  | "established" => some "founded_year"
  | _ => Option.none

/-- `KaggleIngestion.normalize_schema`'s default mapping
(kaggle_ingestion.py lines 214-234); slightly smaller than the other table
(no "location", "revenues" or "established" variants). -/
def kaggle_default_mapping : String → Option String := fun c =>
  match c with
  | "name" => some "company_name"
  | "company" => some "company_name"
  | "company_name" => some "company_name"
  | "domain" => some "domain"
  | "website" => some "domain"
  | "url" => some "domain"
  | "industry" => some "industry"
  | "industry_type" => some "industry"
  | "sector" => some "industry"
  | "country" => some "country"
  | "country_code" => some "country"
  | "employees" => some "employee_count"
  | "employee_count" => some "employee_count"
  | "num_employees" => some "employee_count"
  | "revenue" => some "revenue"
  | "annual_revenue" => some "revenue"
  | "founded" => some "founded_year"
  | "founded_year" => some "founded_year"
  | "year_founded" => some "founded_year"
  | _ => Option.none

/-- The seven canonical domain columns. -/
def required_columns : List String :=
  ["company_name", "domain", "industry", "country",
   "employee_count", "revenue", "founded_year"]

/-- The full output schema. -/
def final_columns : List String := required_columns ++ ["source_system", "last_updated_at"]

/-- `astype(str).str.strip()` on the company-name column. -/
def clean_company_name (v : PyVal) : PyVal := .str (pyStrip (astypeStr v))

/-- Strip a leading URL scheme (`^https?://`). -/
def dropScheme (cs : List Char) : List Char :=
  if listLeads "https://".toList cs then cs.drop 8
  else if listLeads "http://".toList cs then cs.drop 7
  else cs

/-- Strip a leading `www.`. -/
def dropWww (cs : List Char) : List Char :=
  if listLeads "www.".toList cs then cs.drop 4 else cs

/-- The domain-cleaning chain of fortune1000_ingestion.py lines 161-166:
lower-case, strip, drop the scheme and `www.`, keep the host before the
first `/`. -/
def clean_domain (v : PyVal) : PyVal :=
  let s := pyStrip (lowerStr (astypeStr v))
  .str ((dropWww (dropScheme s.toList)).takeWhile (fun c => c ≠ '/')).asString

/-- The country synonym table of fortune1000_ingestion.py lines 171-177. -/
def country_synonyms (s : String) : String :=
  if s = "US" then "USA"
  else if s = "UNITED STATES" then "USA"
  else if s = "UNITED STATES OF AMERICA" then "USA"
  else if s = "UK" then "UK"
  else if s = "UNITED KINGDOM" then "UK"
  else s

/-- `astype(str).str.upper().str.strip()` plus the synonym table. -/
def clean_country (v : PyVal) : PyVal :=
  .str (country_synonyms (pyStrip (upperStr (astypeStr v))))

namespace Fortune1000Ingestion

/-- `Fortune1000Ingestion.normalize_schema` (fortune1000_ingestion.py lines
92-198) acting on one row: rename columns through the mapping table, append
missing canonical columns as null, clean the textual columns, coerce the
numeric columns with `pd.to_numeric(errors='coerce')`, set the metadata
columns, and project onto the canonical schema.  `now` stands for
`datetime.utcnow().isoformat()`. -/
def normalize_schema (row : Row) (source_system now : String) : Row :=
  let r := renameRow column_mapping row
  let r := ensureCols required_columns r
  let r := mapCol "company_name" clean_company_name r
  let r := mapCol "domain" clean_domain r
  let r := mapCol "country" clean_country r
  let r := mapCol "employee_count" to_numeric r
  let r := mapCol "revenue" to_numeric r
  let r := mapCol "founded_year" to_numeric r
  let r := setCol "source_system" (.str source_system) r
  let r := setCol "last_updated_at" (.str now) r
  selectCols final_columns r

end Fortune1000Ingestion

namespace DownloadDatasets

/-- `normalize_schema` in download_datasets.py (lines 150-210) acting on one
row: rename, append missing canonical columns as null, set the metadata
columns and project.  Note: unlike the Fortune-1000 normalizer it performs
no cleaning and no numeric coercion. -/
def normalize_schema (row : Row) (source_name now : String) : Row :=
  let r := renameRow column_mapping row
  let r := ensureCols required_columns r
  let r := setCol "source_system" (.str source_name) r
  let r := setCol "last_updated_at" (.str now) r
  selectCols final_columns r

end DownloadDatasets

namespace KaggleIngestion

/-- `KaggleIngestion.normalize_schema` (kaggle_ingestion.py lines 194-273)
with no caller-supplied extra mapping: rename, append missing canonical
columns as null, set the metadata columns and project.  The source selects
`df_normalized[final_columns]` unguarded; since every final column is
guaranteed present at that point (proved below), the guarded projection
used here coincides with it. -/
def normalize_schema (row : Row) (source_system now : String) : Row :=
  let r := renameRow kaggle_default_mapping row
  let r := ensureCols required_columns r
  let r := setCol "source_system" (.str source_system) r
  let r := setCol "last_updated_at" (.str now) r
  selectCols final_columns r

end KaggleIngestion

/- ### Association-list lemmas for the normalizers -/

theorem hasKey_iff_mem_keys (c : String) (r : Row) :
    hasKey c r = true ↔ c ∈ keysOf r := by
  simp [hasKey, keysOf, List.any_eq_true, List.mem_map]

theorem lookup_cons (c : String) (kv : String × PyVal) (t : Row) :
    lookupV c (kv :: t) = if kv.1 == c then some kv.2 else lookupV c t := by
  by_cases h : kv.1 == c
  · simp [lookupV, List.find?_cons, h]
  · simp [lookupV, List.find?_cons, h]

theorem hasKey_cons (c : String) (kv : String × PyVal) (t : Row) :
    hasKey c (kv :: t) = ((kv.1 == c) || hasKey c t) := by
  simp [hasKey]

theorem lookup_isSome_eq_hasKey (c : String) (r : Row) :
    (lookupV c r).isSome = hasKey c r := by
  induction r with
  | nil => rfl
  | cons kv t ih =>
    rw [lookup_cons, hasKey_cons]
    by_cases h : kv.1 == c
    · simp [h]
    · simp [h, ih]

theorem lookup_replace_map (c : String) (v : PyVal) (r : Row)
    (h : hasKey c r = true) :
    lookupV c (r.map (fun kv => if kv.1 == c then (c, v) else kv)) = some v := by
  induction r with
  | nil => simp [hasKey] at h
  | cons kv t ih =>
    rw [List.map_cons]
    by_cases hk : kv.1 == c
    · simp [lookup_cons, hk]
    · have ht : hasKey c t = true := by
        rw [hasKey_cons] at h
        simpa [hk] using h
      rw [lookup_cons]
      simp only [hk, if_neg]
      simpa [hk] using ih ht

theorem lookup_append_single (c : String) (v : PyVal) (r : Row)
    (h : hasKey c r = false) :
    lookupV c (r ++ [(c, v)]) = some v := by
  induction r with
  | nil => simp [lookup_cons]
  | cons kv t ih =>
    rw [hasKey_cons, Bool.or_eq_false_iff] at h
    rw [List.cons_append, lookup_cons]
    simp only [h.1]
    simpa using ih h.2

theorem lookup_setCol_self (c : String) (v : PyVal) (r : Row) :
    lookupV c (setCol c v r) = some v := by
  unfold setCol
  by_cases h : hasKey c r
  · simpa [h] using lookup_replace_map c v r h
  · have h' : hasKey c r = false := by simpa using h
    simpa [h'] using lookup_append_single c v r h'

theorem lookup_replace_map_ne (c c' : String) (v : PyVal) (r : Row)
    (h : c ≠ c') :
    lookupV c (r.map (fun kv => if kv.1 == c' then (c', v) else kv)) = lookupV c r := by
  induction r with
  | nil => rfl
  | cons kv t ih =>
    rw [List.map_cons]
    by_cases hk : kv.1 == c'
    · have hkv : kv.1 = c' := by simpa [beq_iff_eq] using hk
      have h2 : (c' == c) = false := by
        simp [beq_iff_eq]
        exact fun hq => h hq.symm
      have h3 : (kv.1 == c) = false := by
        simp [beq_iff_eq, hkv]
        exact fun hq => h hq.symm
      rw [lookup_cons, lookup_cons]
      simp only [hk, if_pos, h2, h3, if_neg]
      simpa using ih

    · rw [lookup_cons, lookup_cons]
      simp only [hk, if_neg]
      by_cases hc : kv.1 == c
      · simp [hc]
      · simpa [hc] using ih

theorem lookup_append_single_ne (c c' : String) (v : PyVal) (r : Row)
    (h : c ≠ c') : lookupV c (r ++ [(c', v)]) = lookupV c r := by
  induction r with
  | nil =>
    have h2 : (c' == c) = false := by
      simp [beq_iff_eq]
      exact fun hq => h hq.symm
    simp [lookup_cons, h2, lookupV]
  | cons kv t ih =>
    rw [List.cons_append, lookup_cons, lookup_cons]
    by_cases hc : kv.1 == c
    · simp [hc]
    · simpa [hc] using ih

theorem lookup_setCol_ne (c c' : String) (v : PyVal) (r : Row)
    (h : c ≠ c') : lookupV c (setCol c' v r) = lookupV c r := by
  unfold setCol
  by_cases hk : hasKey c' r
  · simpa [hk] using lookup_replace_map_ne c c' v r h
  · have h' : hasKey c' r = false := by simpa using hk
    simpa [h'] using lookup_append_single_ne c c' v r h

theorem hasKey_setCol_self (c : String) (v : PyVal) (r : Row) :
    hasKey c (setCol c v r) = true := by
  have h := lookup_setCol_self c v r
  have := lookup_isSome_eq_hasKey c (setCol c v r)
  rw [h] at this
  simpa using this.symm

theorem hasKey_setCol_of (c c' : String) (v : PyVal) (r : Row)
    (h : hasKey c r = true) : hasKey c (setCol c' v r) = true := by
  by_cases hcc : c = c'
  · subst hcc
    exact hasKey_setCol_self c v r
  · have h1 := lookup_setCol_ne c c' v r hcc
    have h2 := lookup_isSome_eq_hasKey c (setCol c' v r)
    have h3 := lookup_isSome_eq_hasKey c r
    rw [h1, h3, h] at h2
    exact h2.symm

theorem hasKey_mapCol (c c' : String) (f : PyVal → PyVal) (r : Row) :
    hasKey c (mapCol c' f r) = hasKey c r := by
  induction r with
  | nil => rfl
  | cons kv t ih =>
    unfold mapCol at ih ⊢
    rw [List.map_cons, hasKey_cons, hasKey_cons, ih]
    by_cases hk : kv.1 == c'
    · simp [hk]
    · simp [hk]

theorem hasKey_ensureCols_of (c : String) (cols : List String) (r : Row)
    (h : hasKey c r = true) : hasKey c (ensureCols cols r) = true := by
  induction cols generalizing r with
  | nil => simpa [ensureCols] using h
  | cons c' cs ih =>
    show hasKey c (ensureCols cs (if hasKey c' r then r else r ++ [(c', PyVal.none)])) = true
    by_cases hk : hasKey c' r
    · simpa [hk] using ih r h
    · have h' : hasKey c (r ++ [(c', PyVal.none)]) = true := by
        simp only [hasKey, List.any_append]
        simp only [hasKey] at h
        simp [h]
      simpa [hk] using ih _ h'

theorem hasKey_ensureCols_mem (c : String) (cols : List String) (r : Row)
    (h : c ∈ cols) : hasKey c (ensureCols cols r) = true := by
  induction cols generalizing r with
  | nil => cases h
  | cons c' cs ih =>
    show hasKey c (ensureCols cs (if hasKey c' r then r else r ++ [(c', PyVal.none)])) = true
    rcases List.mem_cons.mp h with hc | hc
    · subst hc
      by_cases hk : hasKey c r
      · simpa [hk] using hasKey_ensureCols_of c cs r hk
      · have h' : hasKey c (r ++ [(c, PyVal.none)]) = true := by
          simp [hasKey, List.any_append]
        simpa [hk] using hasKey_ensureCols_of c cs _ h'
    · by_cases hk : hasKey c' r
      · simpa [hk] using ih r hc
      · simpa [hk] using ih _ hc

theorem lookup_selectCols (c : String) (cols : List String) (r : Row)
    (hmem : c ∈ cols) (hk : hasKey c r = true) :
    lookupV c (selectCols cols r) = lookupV c r := by
  induction cols with
  | nil => cases hmem
  | cons c' cs ih =>
    simp only [selectCols] at ih ⊢
    rw [List.filterMap_cons]
    by_cases hc : c = c'
    · subst hc
      have hs : (lookupV c r).isSome = true := by
        rw [lookup_isSome_eq_hasKey]; exact hk
      rcases Option.isSome_iff_exists.mp hs with ⟨v, hv⟩
      have hv' : (r.find? (fun kv => kv.1 == c)).map (fun kv => kv.2) = some v := hv
      rcases Option.map_eq_some'.mp hv' with ⟨kv, hkv, hkv2⟩
      rw [hkv]
      simp only [Option.map_some']
      rw [lookup_cons]
      simp [hv, hkv2]
    · have hcb : (c' == c) = false := by
        simp [beq_iff_eq]
        exact fun hq => hc hq.symm
      have hmem' : c ∈ cs := by
        rcases List.mem_cons.mp hmem with h | h
        · exact absurd h hc
        · exact h
      cases hfind : r.find? (fun kv => kv.1 == c') with
      | none =>
        simpa using ih hmem'
      | some kv =>
        simp only [Option.map_some']
        rw [lookup_cons]
        simpa [hcb] using ih hmem'

theorem hasKey_selectCols (c : String) (cols : List String) (r : Row)
    (hmem : c ∈ cols) (hk : hasKey c r = true) :
    hasKey c (selectCols cols r) = true := by
  have h1 := lookup_selectCols c cols r hmem hk
  have h2 := lookup_isSome_eq_hasKey c (selectCols cols r)
  have h3 := lookup_isSome_eq_hasKey c r
  rw [h1, h3, hk] at h2
  exact h2.symm

/-- C2: every record leaving a normalizer carries all seven canonical
domain columns as keys — a missing column is appended as null, never
dropped — and has `source_system` and `last_updated_at` populated with the
caller-supplied identifier resp. the normalization timestamp.  Stated for
the Fortune-1000 normalizer and the Kaggle normalizer. -/
theorem normalize_totality (row : Row) (src now : String) :
    (∀ c ∈ required_columns,
      c ∈ keysOf (Fortune1000Ingestion.normalize_schema row src now) ∧
      c ∈ keysOf (KaggleIngestion.normalize_schema row src now)) ∧
    lookupV "source_system" (Fortune1000Ingestion.normalize_schema row src now)
      = some (.str src) ∧
    lookupV "last_updated_at" (Fortune1000Ingestion.normalize_schema row src now)
      = some (.str now) ∧
    lookupV "source_system" (KaggleIngestion.normalize_schema row src now)
      = some (.str src) ∧
    lookupV "last_updated_at" (KaggleIngestion.normalize_schema row src now)
      = some (.str now) := by
  have hss : ("source_system" : String) ∈ final_columns := by decide
  have hlu : ("last_updated_at" : String) ∈ final_columns := by decide
  simp only [Fortune1000Ingestion.normalize_schema, KaggleIngestion.normalize_schema]
  refine ⟨?_, ?_, ?_, ?_, ?_⟩
  · intro c hc
    have hcf : c ∈ final_columns := List.mem_append_left _ hc
    constructor
    · rw [← hasKey_iff_mem_keys]
      apply hasKey_selectCols c _ _ hcf
      apply hasKey_setCol_of
      apply hasKey_setCol_of
      rw [hasKey_mapCol, hasKey_mapCol, hasKey_mapCol,
        hasKey_mapCol, hasKey_mapCol, hasKey_mapCol]
      exact hasKey_ensureCols_mem c _ _ hc
    · rw [← hasKey_iff_mem_keys]
      apply hasKey_selectCols c _ _ hcf
      apply hasKey_setCol_of
      apply hasKey_setCol_of
      exact hasKey_ensureCols_mem c _ _ hc
  · rw [lookup_selectCols _ _ _ hss
      (hasKey_setCol_of _ _ _ _ (hasKey_setCol_self _ _ _)),
      lookup_setCol_ne _ _ _ _ (by decide), lookup_setCol_self]
  · rw [lookup_selectCols _ _ _ hlu (hasKey_setCol_self _ _ _),
      lookup_setCol_self]
  · rw [lookup_selectCols _ _ _ hss
      (hasKey_setCol_of _ _ _ _ (hasKey_setCol_self _ _ _)),
      lookup_setCol_ne _ _ _ _ (by decide), lookup_setCol_self]
  · rw [lookup_selectCols _ _ _ hlu (hasKey_setCol_self _ _ _),
      lookup_setCol_self]

/-- Witness for C2 at the spec's example row. -/
theorem normalize_totality_witness :
    "domain" ∈ keysOf (Fortune1000Ingestion.normalize_schema
      [("Company", PyVal.str "Acme Co")] "demo" "t0") := by
  exact ((normalize_totality [("Company", PyVal.str "Acme Co")] "demo" "t0").1
    "domain" (by decide)).1

/- ### Numeric coercion (C8) -/

/-- Is a value numeric or null (i.e. not a leftover string)? -/
def isNumOrNull : PyVal → Bool
  | .str _ => false
  | _ => true

theorem isNumOrNull_ratToPy (o : Option ℚ) : isNumOrNull (ratToPy o) = true := by
  cases o with
  | none => rfl
  | some q =>
    by_cases hq : q.den = 1
    · simp [ratToPy, hq, isNumOrNull]
    · simp [ratToPy, hq, isNumOrNull]

theorem isNumOrNull_to_numeric (v : PyVal) : isNumOrNull (to_numeric v) = true := by
  cases v with
  | none => rfl
  | int n => rfl
  | rat q => rfl
  | str s => exact isNumOrNull_ratToPy (parseSigned (pyStrip s).toList)

theorem mem_mapCol (c : String) (f : PyVal → PyVal) (r : Row) (kv : String × PyVal)
    (h : kv ∈ mapCol c f r) :
    ∃ kv₀, kv₀ ∈ r ∧
      ((kv₀.1 = c ∧ kv = (kv₀.1, f kv₀.2)) ∨ (kv₀.1 ≠ c ∧ kv = kv₀)) := by
  unfold mapCol at h
  rcases List.mem_map.mp h with ⟨kv₀, hmem, heq⟩
  by_cases hk : kv₀.1 == c
  · refine ⟨kv₀, hmem, Or.inl ⟨by simpa [beq_iff_eq] using hk, ?_⟩⟩
    rw [← heq]
    simp [hk]
  · refine ⟨kv₀, hmem, Or.inr ⟨by simpa [beq_iff_eq] using hk, ?_⟩⟩
    rw [← heq]
    simp [hk]

/-- "Every value in column `c` is numeric-or-null." -/
def KeyNum (c : String) (r : Row) : Prop :=
  ∀ kv ∈ r, kv.1 = c → isNumOrNull kv.2 = true

theorem keyNum_mapCol_self (c : String) (r : Row) :
    KeyNum c (mapCol c to_numeric r) := by
  intro kv h hkc
  rcases mem_mapCol c to_numeric r kv h with ⟨kv₀, _, hcase⟩
  rcases hcase with ⟨_, heq⟩ | ⟨hne, heq⟩
  · rw [heq]
    exact isNumOrNull_to_numeric kv₀.2
  · rw [heq] at hkc
    exact absurd hkc hne

theorem keyNum_mapCol_other (c c' : String) (f : PyVal → PyVal) (r : Row)
    (hcc : c ≠ c') (H : KeyNum c r) : KeyNum c (mapCol c' f r) := by
  intro kv h hkc
  rcases mem_mapCol c' f r kv h with ⟨kv₀, hmem, hcase⟩
  rcases hcase with ⟨hk0, heq⟩ | ⟨_, heq⟩
  · have h1 : kv.1 = kv₀.1 := by rw [heq]
    rw [h1, hk0] at hkc
    exact absurd hkc.symm hcc
  · rw [heq] at hkc ⊢
    exact H kv₀ hmem hkc

theorem keyNum_setCol (c c' : String) (v : PyVal) (r : Row)
    (hcc : c ≠ c') (H : KeyNum c r) : KeyNum c (setCol c' v r) := by
  intro kv h hkc
  unfold setCol at h
  by_cases hk : hasKey c' r
  · simp only [hk, if_true] at h
    rcases List.mem_map.mp h with ⟨kv₀, hmem, heq⟩
    by_cases hb : kv₀.1 == c'
    · rw [if_pos hb] at heq
      rw [← heq] at hkc
      have hc : c' = c := by simpa using hkc
      exact absurd hc.symm hcc
    · rw [if_neg (by simpa using hb)] at heq
      rw [← heq] at hkc ⊢
      exact H kv₀ hmem hkc
  · simp only [hk, if_false, Bool.false_eq_true] at h
    rcases List.mem_append.mp h with hmem | hmem
    · exact H kv hmem hkc
    · rcases List.mem_singleton.mp hmem with heq
      rw [heq] at hkc
      have hc : c' = c := by simpa using hkc
      exact absurd hc.symm hcc

theorem keyNum_selectCols (c : String) (cols : List String) (r : Row)
    (H : KeyNum c r) : KeyNum c (selectCols cols r) := by
  intro kv h hkc
  unfold selectCols at h
  rcases List.mem_filterMap.mp h with ⟨c', _, heq⟩
  rcases Option.map_eq_some'.mp heq with ⟨kv₀, hfind, hkv⟩
  have hmem := List.mem_of_find?_eq_some hfind
  have hp : kv₀.1 = c' := by simpa [beq_iff_eq] using List.find?_some hfind
  have h1 : kv.1 = c' := by rw [← hkv]
  have h2 : kv.2 = kv₀.2 := by rw [← hkv]
  rw [h2]
  exact H kv₀ hmem (by rw [hp, ← h1, hkc])

/-- C8 amended: the Fortune-1000 normalizer coerces `employee_count` and
`revenue` with parse-or-null semantics — every value it emits in those
columns is numeric or null, a non-numeric source string becomes null, and
the coercion is a total function (never raises).  The download-script
normalizer cited by the same claim performs no coercion at all (see the
counterexample). -/
theorem fortune_numeric_parse_or_null :
    (∀ (row : Row) (src now : String) (kv : String × PyVal),
        kv ∈ Fortune1000Ingestion.normalize_schema row src now →
        kv.1 = "employee_count" ∨ kv.1 = "revenue" → isNumOrNull kv.2 = true) ∧
    to_numeric (PyVal.str "twelve") = PyVal.none ∧
    lookupV "employee_count"
        (Fortune1000Ingestion.normalize_schema
          [("Employees", PyVal.str "twelve")] "fortune1000" "t0")
      = some PyVal.none := by
  refine ⟨?_, by decide, by decide⟩
  intro row src now kv hmem hk
  simp only [Fortune1000Ingestion.normalize_schema] at hmem
  rcases hk with hk | hk
  · refine (?_ : KeyNum "employee_count" _) kv hmem hk
    apply keyNum_selectCols
    refine keyNum_setCol _ _ _ _ (by decide) ?_
    refine keyNum_setCol _ _ _ _ (by decide) ?_
    refine keyNum_mapCol_other _ _ _ _ (by decide) ?_
    refine keyNum_mapCol_other _ _ _ _ (by decide) ?_
    apply keyNum_mapCol_self
  · refine (?_ : KeyNum "revenue" _) kv hmem hk
    apply keyNum_selectCols
    refine keyNum_setCol _ _ _ _ (by decide) ?_
    refine keyNum_setCol _ _ _ _ (by decide) ?_
    refine keyNum_mapCol_other _ _ _ _ (by decide) ?_
    apply keyNum_mapCol_self

/-- Witness for the amended C8 theorem at a concrete row. -/
theorem fortune_numeric_parse_or_null_witness :
    isNumOrNull ("employee_count", PyVal.none).2 = true := by
  exact fortune_numeric_parse_or_null.1
    [("Employees", PyVal.str "twelve")] "fortune1000" "t0"
    ("employee_count", PyVal.none) (by decide) (Or.inl rfl)

/-- C8 as stated is false for the `normalize_schema` of
download_datasets.py (cited by the claim): it renames columns, appends the
missing ones and sets the metadata, but performs no numeric coercion, so a
non-numeric `employee_count` survives as a string instead of becoming
null. -/
theorem download_no_numeric_coercion :
    lookupV "employee_count"
        (DownloadDatasets.normalize_schema
          [("Employees", PyVal.str "twelve")] "global_companies" "t0")
      = some (PyVal.str "twelve") ∧
    PyVal.str "twelve" ≠ PyVal.none := by
  exact ⟨by decide, by decide⟩

/- ### Enrichment selection (C3) -/

namespace Fortune1000Ingestion

/-- One cell of the missing-fields mask of
`Fortune1000Ingestion.enrich_with_scraping` (fortune1000_ingestion.py line
216): `df.isnull() | (df == '') | (df == 'None')`.  A pandas frame always
carries the column, so an absent key is treated as a null cell. -/
def isMissing (o : Option PyVal) : Bool :=
  match o with
  | Option.none => true
  | some v => v == PyVal.none || v == PyVal.str "" || v == PyVal.str "None"

/-- The `needs_enrichment` mask (lines 219-224): any of domain, industry,
employee_count or founded_year missing. -/
def needs_enrichment (r : Record) : Bool :=
  isMissing (r .domain) || isMissing (r .industry) ||
    isMissing (r .employee_count) || isMissing (r .founded_year)

/-- `Fortune1000Ingestion.enrich_with_scraping` (lines 200-245), parametric
in the awaited scraper call `e` (`enrich_companies_async`): partition the
input by the missing-fields mask, hand only the selected records to the
scraper, and concatenate the untouched complete partition with the
enriched one; when nothing needs enrichment the input is returned as is. -/
def enrich_with_scraping (e : List Record → List Record) (rs : List Record) :
    List Record :=
  let companies_to_enrich := rs.filter needs_enrichment
  let companies_enriched := rs.filter (fun r => !needs_enrichment r)
  if companies_to_enrich.isEmpty then rs
  else companies_enriched ++ e companies_to_enrich

end Fortune1000Ingestion

/-- A record with every field populated except that `domain` is the empty
string — non-null, but selected for enrichment anyway. -/
def rEmptyDomain : Record :=
  fun f =>
    match f with
    | .domain => some (.str "")
    | .company_name => some (.str "Acme Co")
    | .industry => some (.str "Software")
    | .country => some (.str "USA")
    | .employee_count => some (.int 10)
    | .revenue => some (.int 5000000)
    | .founded_year => some (.int 1998)
    | .source_system => some (.str "demo")
    | .last_updated_at => some (.str "t0")

/-- C3 as stated is false: none of domain / industry / employee_count /
founded_year of `rEmptyDomain` is null, yet the orchestrator selects it
(its empty-string domain matches the `(df == '')` clause of the mask) and
it is not passed through untouched — with a scraper that returns nothing,
the record disappears from the output instead of surviving unchanged. -/
theorem enrich_selects_nonnull_record :
    (rEmptyDomain .domain ≠ some PyVal.none ∧ rEmptyDomain .domain ≠ Option.none) ∧
    (rEmptyDomain .industry ≠ some PyVal.none ∧ rEmptyDomain .industry ≠ Option.none) ∧
    (rEmptyDomain .employee_count ≠ some PyVal.none ∧
      rEmptyDomain .employee_count ≠ Option.none) ∧
    (rEmptyDomain .founded_year ≠ some PyVal.none ∧
      rEmptyDomain .founded_year ≠ Option.none) ∧
    Fortune1000Ingestion.needs_enrichment rEmptyDomain = true ∧
    Fortune1000Ingestion.enrich_with_scraping (fun _ => []) [rEmptyDomain] = [] := by
  refine ⟨⟨by decide, by decide⟩, ⟨by decide, by decide⟩, ⟨by decide, by decide⟩,
    ⟨by decide, by decide⟩, by decide, rfl⟩

/-- C3 amended: the Fortune-1000 orchestrator selects for enrichment
exactly the records in which any of domain, industry, employee_count or
founded_year is null, the empty string, or the literal string `'None'`
(the pandas missing-fields mask), and every unselected record is passed
through untouched, ahead of the enriched partition, with no scraper call
made on it; when no record is selected the input list is returned as is. -/
theorem enrich_partition (e : List Record → List Record) (rs : List Record) :
    (rs.filter Fortune1000Ingestion.needs_enrichment = [] →
      Fortune1000Ingestion.enrich_with_scraping e rs = rs) ∧
    (rs.filter Fortune1000Ingestion.needs_enrichment ≠ [] →
      Fortune1000Ingestion.enrich_with_scraping e rs =
        rs.filter (fun r => !Fortune1000Ingestion.needs_enrichment r) ++
          e (rs.filter Fortune1000Ingestion.needs_enrichment)) ∧
    (∀ r ∈ rs, Fortune1000Ingestion.needs_enrichment r = false →
      r ∈ Fortune1000Ingestion.enrich_with_scraping e rs) := by
  refine ⟨?_, ?_, ?_⟩
  · intro h
    simp [Fortune1000Ingestion.enrich_with_scraping, h]
  · intro h
    have h' : (rs.filter Fortune1000Ingestion.needs_enrichment).isEmpty = false := by
      simpa [List.isEmpty_iff] using h
    simp [Fortune1000Ingestion.enrich_with_scraping, h']
  · intro r hr hnf
    by_cases hfe : rs.filter Fortune1000Ingestion.needs_enrichment = []
    · simp only [Fortune1000Ingestion.enrich_with_scraping, hfe, List.isEmpty_nil, if_true]
      exact hr
    · have h' : (rs.filter Fortune1000Ingestion.needs_enrichment).isEmpty = false := by
        simpa [List.isEmpty_iff] using hfe
      simp only [Fortune1000Ingestion.enrich_with_scraping, h', Bool.false_eq_true, if_false]
      apply List.mem_append_left
      exact List.mem_filter.mpr ⟨hr, by simp [hnf]⟩

/-- A fully populated record that needs no enrichment. -/
def rComplete : Record :=
  fun f =>
    match f with
    | .domain => some (.str "acme.com")
    | .company_name => some (.str "Acme Co")
    | .industry => some (.str "Software")
    | .country => some (.str "USA")
    | .employee_count => some (.int 10)
    | .revenue => some (.int 5000000)
    | .founded_year => some (.int 1998)
    | .source_system => some (.str "demo")
    | .last_updated_at => some (.str "t0")

/-- Witness for the amended C3 theorem at a concrete record list. -/
theorem enrich_partition_witness :
    Fortune1000Ingestion.enrich_with_scraping (fun l => l) [rComplete] = [rComplete] :=
  (enrich_partition (fun l => l) [rComplete]).1 rfl

/- ### The rate-limited fetch client (C6) -/

namespace WebScraper

/-- Outcome of `client.get(url)` inside `fetch_url`: a response carrying a
status code and body text, or a raised exception. -/
inductive HttpOutcome where
  | resp (status : Nat) (text : String)
  | httpStatusError (status : Nat)
  | timeout
  | transportError
  | otherError
deriving DecidableEq, Repr

/-- The `try:` body of `WebScraper.fetch_url` (web_scraper.py lines 72-80):
return the body text on a 200, `None` on any other status; a raised
exception propagates out of the body. -/
def fetch_url_body : HttpOutcome → Except HttpOutcome (Option String)
  | .resp s t => if s = 200 then .ok (some t) else .ok Option.none
  | e => .error e

/-- `WebScraper.fetch_url` (lines 61-87): the body wrapped in
`except httpx.HTTPStatusError` and a final `except Exception` catch-all,
both of which return `None`. -/
def fetch_url (o : HttpOutcome) : Except HttpOutcome (Option String) :=
  match fetch_url_body o with
  | .ok r => .ok r
  | .error (.httpStatusError _) => .ok Option.none
  | .error _ => .ok Option.none

end WebScraper

/-- C6: `fetch_url` returns the page content exactly on a 200 response,
returns null on any non-200 response or raised exception (timeout,
transport error, anything else), and never lets an exception escape to its
caller. -/
theorem fetch_url_absorbs_failures (o : WebScraper.HttpOutcome) :
    (∃ r, WebScraper.fetch_url o = Except.ok r) ∧
    (∀ s t, o = .resp s t →
      WebScraper.fetch_url o = .ok (if s = 200 then some t else Option.none)) ∧
    (∀ t, WebScraper.fetch_url o = .ok (some t) → o = .resp 200 t) := by
  refine ⟨?_, ?_, ?_⟩
  · cases o with
    | resp s t =>
      by_cases hs : s = 200
      · exact ⟨some t, by simp [WebScraper.fetch_url, WebScraper.fetch_url_body, hs]⟩
      · exact ⟨Option.none, by simp [WebScraper.fetch_url, WebScraper.fetch_url_body, hs]⟩
    | httpStatusError s => exact ⟨Option.none, rfl⟩
    | timeout => exact ⟨Option.none, rfl⟩
    | transportError => exact ⟨Option.none, rfl⟩
    | otherError => exact ⟨Option.none, rfl⟩
  · intro s t ho
    subst ho
    by_cases hs : s = 200
    · simp [WebScraper.fetch_url, WebScraper.fetch_url_body, hs]
    · simp [WebScraper.fetch_url, WebScraper.fetch_url_body, hs]
  · intro t h
    cases o with
    | resp s t' =>
      by_cases hs : s = 200
      · subst hs
        simp [WebScraper.fetch_url, WebScraper.fetch_url_body] at h
        rw [h]
      · simp [WebScraper.fetch_url, WebScraper.fetch_url_body, hs] at h
    | httpStatusError s => exact absurd h (by simp [WebScraper.fetch_url, WebScraper.fetch_url_body])
    | timeout => exact absurd h (by simp [WebScraper.fetch_url, WebScraper.fetch_url_body])
    | transportError => exact absurd h (by simp [WebScraper.fetch_url, WebScraper.fetch_url_body])
    | otherError => exact absurd h (by simp [WebScraper.fetch_url, WebScraper.fetch_url_body])

/-- Witness for the C6 theorem at concrete outcomes. -/
theorem fetch_url_absorbs_failures_witness :
    WebScraper.fetch_url (.resp 200 "hello") = .ok (some "hello") ∧
    WebScraper.fetch_url (.resp 404 "nope") = .ok Option.none ∧
    WebScraper.fetch_url .timeout = .ok Option.none := by
  refine ⟨?_, ?_, rfl⟩
  · have h := (fetch_url_absorbs_failures (.resp 200 "hello")).2.1 200 "hello" rfl
    simpa using h
  · have h := (fetch_url_absorbs_failures (.resp 404 "nope")).2.1 404 "nope" rfl
    simpa using h

/- ### Field extractor: revenue (C7) -/

namespace WebScraper

/-- `re.sub` keeping only digits, periods and commas (web_scraper.py line
148).  `re.search` for a digit/period/comma run on this text matches the
whole of it whenever it is nonempty. -/
def revenue_run (value : String) : List Char :=
  value.toList.filter (fun c => c.isDigit || c == '.' || c == ',')

/-- The matched run with commas removed (line 151). -/
def revenue_str (value : String) : List Char :=
  (revenue_run value).filter (fun c => c ≠ ',')

/-- The magnitude factor the branch chain of lines 153-159 selects:
`'billion' in value.lower() or 'bn' in value.lower()` scales by 1e9,
`'million' ... or 'mn' ... or 'm' ...` scales by 1e6, otherwise the number
is taken literally. -/
def revenue_scale (value : String) : ℚ :=
  let low := lowerStr value
  if strContains low "billion" || strContains low "bn" then 1000000000
  else if strContains low "million" || strContains low "mn" || strContains low "m" then
    1000000
  else 1

/-- The revenue branch of `parse_wikipedia_infobox` (lines 145-161) for one
cell text: `.ok Option.none` means the revenue field is left unassigned
(omitted from the partial record), `.ok (some q)` an assignment, `.error`
the uncaught `ValueError` that `float()` raises on a malformed run in the
two magnitude branches (only the literal branch wraps `float()` in
`try/except: pass`). -/
def parse_revenue (value : String) : Except Unit (Option ℚ) :=
  if (revenue_run value).isEmpty then .ok Option.none
  else
    let low := lowerStr value
    if strContains low "billion" || strContains low "bn" then
      match floatOfRun (revenue_str value) with
      | some q => .ok (some (q * 1000000000))
      | Option.none => .error ()
    else if strContains low "million" || strContains low "mn" || strContains low "m" then
      match floatOfRun (revenue_str value) with
      | some q => .ok (some (q * 1000000))
      | Option.none => .error ()
    else
      match floatOfRun (revenue_str value) with
      | some q => .ok (some q)
      | Option.none => .ok Option.none

end WebScraper

/-- C7 as stated is false: the text `"5 m"` contains neither `"million"`
nor `"mn"` (nor a billion marker), so the claim says the number is taken
literally (5.0) — but the code's `'m' in value.lower()` test fires on the
bare letter `m` and scales by 1e6 instead. -/
theorem revenue_bare_m_scaled :
    strContains (lowerStr "5 m") "million" = false ∧
    strContains (lowerStr "5 m") "mn" = false ∧
    strContains (lowerStr "5 m") "billion" = false ∧
    strContains (lowerStr "5 m") "bn" = false ∧
    WebScraper.parse_revenue "5 m" = .ok (some 5000000) ∧
    (5000000 : ℚ) ≠ 5 := by
  refine ⟨by decide, by decide, by decide, by decide, ?_, by norm_num⟩
  have hrun : (WebScraper.revenue_run "5 m").isEmpty = false := by decide
  have hb : (strContains (lowerStr "5 m") "billion"
      || strContains (lowerStr "5 m") "bn") = false := by decide
  have hm : (strContains (lowerStr "5 m") "million"
      || strContains (lowerStr "5 m") "mn"
      || strContains (lowerStr "5 m") "m") = true := by decide
  have hf : floatOfRun (WebScraper.revenue_str "5 m") = some 5 := by decide
  simp only [WebScraper.parse_revenue, hrun, Bool.false_eq_true, if_false, hb, hm,
    if_true, hf]
  norm_num

/-- C7 amended: when the cell text contains a numeric run that parses, the
extracted number is multiplied by 1e9 if the text contains `"billion"` or
`"bn"`, by 1e6 if it contains `"million"`, `"mn"` or the bare letter `"m"`
(the billion test wins when both match), and is taken literally otherwise;
when the text contains no digit, period or comma at all the revenue field
is omitted silently, and a non-parsing run is also dropped silently in the
literal branch (in the magnitude branches it raises, caught upstream by the
per-record handler). -/
theorem parse_revenue_spec (value : String) :
    ((WebScraper.revenue_run value).isEmpty = true →
      WebScraper.parse_revenue value = .ok Option.none) ∧
    (∀ q, (WebScraper.revenue_run value).isEmpty = false →
      floatOfRun (WebScraper.revenue_str value) = some q →
      WebScraper.parse_revenue value = .ok (some (q * WebScraper.revenue_scale value))) ∧
    ((WebScraper.revenue_run value).isEmpty = false →
      floatOfRun (WebScraper.revenue_str value) = Option.none →
      WebScraper.revenue_scale value = 1 →
      WebScraper.parse_revenue value = .ok Option.none) := by
  refine ⟨?_, ?_, ?_⟩
  · intro h
    simp [WebScraper.parse_revenue, h]
  · intro q hemp hq
    by_cases hb : (strContains (lowerStr value) "billion"
        || strContains (lowerStr value) "bn") = true
    · simp [WebScraper.parse_revenue, WebScraper.revenue_scale, hemp, hb, hq]
    · have hb2 : (strContains (lowerStr value) "billion"
          || strContains (lowerStr value) "bn") = false := by simpa using hb
      by_cases hm : (strContains (lowerStr value) "million"
          || strContains (lowerStr value) "mn"
          || strContains (lowerStr value) "m") = true
      · simp [WebScraper.parse_revenue, WebScraper.revenue_scale, hemp, hb2, hm, hq]
      · have hm2 : (strContains (lowerStr value) "million"
            || strContains (lowerStr value) "mn"
            || strContains (lowerStr value) "m") = false := by simpa using hm
        simp [WebScraper.parse_revenue, WebScraper.revenue_scale, hemp, hb2, hm2, hq]
  · intro hemp hnone hscale
    by_cases hb : (strContains (lowerStr value) "billion"
        || strContains (lowerStr value) "bn") = true
    · exfalso
      simp only [WebScraper.revenue_scale, hb, if_true] at hscale
      norm_num at hscale
    · have hb2 : (strContains (lowerStr value) "billion"
          || strContains (lowerStr value) "bn") = false := by simpa using hb
      by_cases hm : (strContains (lowerStr value) "million"
          || strContains (lowerStr value) "mn"
          || strContains (lowerStr value) "m") = true
      · exfalso
        simp only [WebScraper.revenue_scale, hb2, Bool.false_eq_true, if_false, hm,
          if_true] at hscale
        norm_num at hscale
      · have hm2 : (strContains (lowerStr value) "million"
            || strContains (lowerStr value) "mn"
            || strContains (lowerStr value) "m") = false := by simpa using hm
        simp [WebScraper.parse_revenue, hemp, hb2, hm2, hnone]

/-- Witness for the amended C7 theorem: the spec's own example,
`"$2.3 billion"` extracts to exactly 2.3e9. -/
theorem parse_revenue_spec_witness :
    WebScraper.parse_revenue "$2.3 billion" = .ok (some 2300000000) := by
  have hemp : (WebScraper.revenue_run "$2.3 billion").isEmpty = false := by decide
  have hrs : WebScraper.revenue_str "$2.3 billion" = ['2', '.', '3'] := by decide
  have hsplit : List.splitOn '.' ['2', '.', '3'] = [['2'], ['3']] := by decide
  have hd2 : digitsToNat ['2'] = 2 := by decide
  have hd3 : digitsToNat ['3'] = 3 := by decide
  have hf : floatOfRun (WebScraper.revenue_str "$2.3 billion")
      = some ((digitsToNat ['2'] : ℚ)
          + (digitsToNat ['3'] : ℚ) / (10 : ℚ) ^ (List.length ['3'])) := by
    rw [hrs]
    simp [floatOfRun, hsplit]
  have hscale : WebScraper.revenue_scale "$2.3 billion" = 1000000000 := by
    have hb : (strContains (lowerStr "$2.3 billion") "billion"
        || strContains (lowerStr "$2.3 billion") "bn") = true := by decide
    simp [WebScraper.revenue_scale, hb]
  have h := (parse_revenue_spec "$2.3 billion").2.1 _ hemp hf
  rw [h, hscale, hd2, hd3]
  norm_num

/- ### Fallback dataset resolver (C5) -/

/-- Result of one candidate's fetch step in `download_global_companies`
(download_datasets.py lines 96-145) and `download_17m_company_dataset`
(kaggle_ingestion.py lines 133-189): either some exception was raised
(download failure, read failure — all folded together by the `except`
clause), or the working directory holds lists of CSV and parquet files,
each file being its list of rows. -/
inductive FetchOutcome (ρ : Type) where
  | error
  | files (csvs parqs : List (List ρ))

/-- Does a candidate succeed, i.e. yield at least one tabular file without
raising? -/
def candidateOk {ρ : Type} (env : String → FetchOutcome ρ) (d : String) : Bool :=
  match env d with
  | .error => false
  | .files csvs parqs => !csvs.isEmpty || !parqs.isEmpty

/-- The data a successful candidate returns: the row-wise concatenation of
its CSV files, or of its parquet files when there are no CSVs. -/
def candidateData {ρ : Type} (env : String → FetchOutcome ρ) (d : String) : List ρ :=
  match env d with
  | .error => []
  | .files csvs parqs => if !csvs.isEmpty then csvs.flatten else parqs.flatten

/-- The fallback loop of `download_global_companies` and
`download_17m_company_dataset`: candidates are attempted in order; an
exception or an empty working directory advances (after cleanup) to the
next candidate; the first candidate with a tabular file returns its data
immediately; exhausting the list raises.  Returns the result together with
the list of candidates actually attempted, in order. -/
def resolve {ρ : Type} (env : String → FetchOutcome ρ) :
    List String → Except Unit (List ρ) × List String
  | [] => (.error (), [])
  | d :: ds =>
    match env d with
    | .error =>
      let r := resolve env ds
      (r.1, d :: r.2)
    | .files csvs parqs =>
      if !csvs.isEmpty then (.ok csvs.flatten, [d])
      else if !parqs.isEmpty then (.ok parqs.flatten, [d])
      else
        let r := resolve env ds
        (r.1, d :: r.2)

/-- C5: the resolver returns the data of the first candidate that yields a
tabular file, attempts exactly the failing candidates before it plus that
one — so no candidate after a success is ever attempted — and raises only
when every candidate in the list has been attempted and failed. -/
theorem resolve_first_success {ρ : Type} (env : String → FetchOutcome ρ)
    (ds : List String) :
    (∀ pre d post, ds = pre ++ d :: post →
      (∀ x ∈ pre, candidateOk env x = false) → candidateOk env d = true →
      resolve env ds = (.ok (candidateData env d), pre ++ [d])) ∧
    ((∀ x ∈ ds, candidateOk env x = false) →
      resolve env ds = (.error (), ds)) := by
  induction ds with
  | nil =>
    constructor
    · intro pre d post hds _ _
      simp at hds
    · intro _
      rfl
  | cons a t ih =>
    constructor
    · intro pre d post hds hpre hd
      cases pre with
      | nil =>
        rw [List.nil_append] at hds
        injection hds with h1 h2
        subst h1
        subst h2
        cases henv : env a with
        | error => simp [candidateOk, henv] at hd
        | files cs ps =>
          have hok : (!cs.isEmpty || !ps.isEmpty) = true := by
            simpa [candidateOk, henv] using hd
          by_cases hcs : cs.isEmpty
          · have hps : (!ps.isEmpty) = true := by simpa [hcs] using hok
            simp [resolve, henv, hcs, hps, candidateData]
          · have hcs2 : cs.isEmpty = false := by simpa using hcs
            simp [resolve, henv, hcs2, candidateData]
      | cons p pre2 =>
        rw [List.cons_append] at hds
        injection hds with h1 h2
        subst h1
        have ha : candidateOk env a = false := hpre a (List.mem_cons_self a pre2)
        have hpre2 : ∀ x ∈ pre2, candidateOk env x = false :=
          fun x hx => hpre x (List.mem_cons_of_mem a hx)
        have hrec := ih.1 pre2 d post h2 hpre2 hd
        cases henv : env a with
        | error =>
          simp [resolve, henv, hrec]
        | files cs ps =>
          have hb : (!cs.isEmpty || !ps.isEmpty) = false := by
            simpa [candidateOk, henv] using ha
          rcases Bool.or_eq_false_iff.mp hb with ⟨h3, h4⟩
          have hcs : cs.isEmpty = true := by simpa using h3
          have hps : ps.isEmpty = true := by simpa using h4
          simp [resolve, henv, hcs, hps, hrec]
    · intro h
      have ha : candidateOk env a = false := h a (List.mem_cons_self a t)
      have ht : ∀ x ∈ t, candidateOk env x = false :=
        fun x hx => h x (List.mem_cons_of_mem a hx)
      have hrec := ih.2 ht
      cases henv : env a with
      | error => simp [resolve, henv, hrec]
      | files cs ps =>
        have hb : (!cs.isEmpty || !ps.isEmpty) = false := by
          simpa [candidateOk, henv] using ha
        rcases Bool.or_eq_false_iff.mp hb with ⟨h3, h4⟩
        have hcs : cs.isEmpty = true := by simpa using h3
        have hps : ps.isEmpty = true := by simpa using h4
        simp [resolve, henv, hcs, hps, hrec]

/-- A three-candidate environment: A raises, B yields one CSV, C would
also succeed but must never be attempted. -/
def envABC : String → FetchOutcome Nat := fun d =>
  if d = "A" then .error
  else if d = "B" then .files [[1, 2]] []
  else .files [[99]] []

/-- Witness for C5 at the spec's own scenario: `[A, B, C]` with A failing
and B succeeding resolves to B's data having attempted only A and B. -/
theorem resolve_first_success_witness :
    resolve envABC ["A", "B", "C"] = (.ok [1, 2], ["A", "B"]) := by
  have hpre : ∀ x ∈ ["A"], candidateOk envABC x = false := by
    intro x hx
    have hxa : x = "A" := List.mem_singleton.mp hx
    subst hxa
    decide
  have hok : candidateOk envABC "B" = true := by decide
  have h := (resolve_first_success envABC ["A", "B", "C"]).1 ["A"] "B" ["C"] rfl hpre hok
  rw [h]
  rfl

/- ### The shared concurrency gate (C9) -/

/-- Run state of one enrichment task's fetch. -/
inductive TaskPhase where
  | pending
  | inFlight
  | done
deriving DecidableEq, Repr

/-- State of the scraper's shared gate — `trio.Semaphore(max_concurrent)`
created once in `WebScraper.__init__` (web_scraper.py line 41) — together
with the phase of every fetch task in the run: `avail` is the semaphore's
counter. -/
structure GateState where
  avail : Nat
  tasks : List TaskPhase

/-- The two transitions `async with self.semaphore:` (line 71) performs
around the request: entering the block consumes one permit (a task blocks
while the counter is zero) and puts the task in flight; leaving the block
(on response or exception alike) releases the permit.  No other source
line touches the semaphore. -/
inductive GateStep : GateState → GateState → Prop where
  | acquire (s : GateState) (i : Nat) :
      s.tasks.get? i = some .pending → 0 < s.avail →
      GateStep s ⟨s.avail - 1, s.tasks.set i .inFlight⟩
  | release (s : GateState) (i : Nat) :
      s.tasks.get? i = some .inFlight →
      GateStep s ⟨s.avail + 1, s.tasks.set i .done⟩

/-- A fresh semaphore with `n` permits and `k` tasks yet to fetch. -/
def initGate (n k : Nat) : GateState := ⟨n, List.replicate k .pending⟩

/-- Number of fetches currently in flight. -/
def inFlightCount (s : GateState) : Nat := s.tasks.count .inFlight

/-- States reachable by any interleaving of acquires and releases. -/
def GateReachable (n k : Nat) (s : GateState) : Prop :=
  Relation.ReflTransGen GateStep (initGate n k) s

theorem count_set_of_get (l : List TaskPhase) (i : Nat) (a b y : TaskPhase)
    (h : l.get? i = some b) :
    (l.set i a).count y + (if b = y then 1 else 0)
      = l.count y + (if a = y then 1 else 0) := by
  induction l generalizing i with
  | nil => simp at h
  | cons hd t iht =>
    cases i with
    | zero =>
      have hb : hd = b := by simpa using h
      subst hb
      simp only [List.set, List.count_cons]
      by_cases h1 : hd = y <;> by_cases h2 : a = y <;> simp [h1, h2] <;> omega
    | succ j =>
      have ht : t.get? j = some b := by simpa using h
      simp only [List.set, List.count_cons]
      have hrec := iht j ht
      by_cases h1 : hd = y <;> simp [h1] <;> omega

theorem gate_invariant (n k : Nat) (s : GateState)
    (h : GateReachable n k s) : inFlightCount s + s.avail = n := by
  induction h with
  | refl =>
    have hrep : ∀ m, (List.replicate m TaskPhase.pending).count TaskPhase.inFlight = 0 := by
      intro m
      induction m with
      | zero => rfl
      | succ j ihj => simpa [List.replicate, List.count_cons] using ihj
    simp [initGate, inFlightCount, hrep]
  | tail hsteps hstep ih =>
    rename_i b c
    cases hstep with
    | acquire i hget hpos =>
      have hc := count_set_of_get b.tasks i .inFlight .pending .inFlight hget
      simp only [inFlightCount] at ih ⊢
      simp at hc
      omega
    | release i hget =>
      have hc := count_set_of_get b.tasks i .done .inFlight .inFlight hget
      simp only [inFlightCount] at ih ⊢
      simp at hc
      omega

/-- C9: whatever the number of pending records and however acquires and
releases interleave, the number of simultaneously in-flight fetches never
exceeds the gate size `n`, because every fetch runs inside the single
shared semaphore: in every reachable state the in-flight count and the
remaining permits sum to exactly `n`. -/
theorem concurrency_bound (n k : Nat) (s : GateState)
    (h : GateReachable n k s) : inFlightCount s ≤ n := by
  have hinv := gate_invariant n k s h
  omega

/-- Witness for C9 under the spec's test load (gate 50, 500 pending
records) after one acquire step. -/
theorem concurrency_bound_witness :
    inFlightCount ⟨49, (List.replicate 500 TaskPhase.pending).set 0 .inFlight⟩ ≤ 50 := by
  exact concurrency_bound 50 500 _
    (Relation.ReflTransGen.single (GateStep.acquire (initGate 50 500) 0 rfl (by decide)))

/- ### The enrichment batch loop (C4) -/

namespace WebScraper

/-- `enrich_one` inside `enrich_companies_async` (web_scraper.py lines
253-266): a record without a truthy company name is appended unchanged; any
exception from the awaited `scrape_company_info` call (whose outcome the
`oracle` supplies) is caught at the task boundary and the original record
is appended instead.  The `company.get('name')` fallback concerns raw,
un-normalized dicts and is not modelled. -/
def enrich_one (oracle : Record → Except Unit Record) (company : Record) : Record :=
  if gTruthy (company .company_name) then
    match oracle company with
    | .ok enriched => enriched
    | .error _ => company
  else company

/-- The batch loop of `enrich_companies_async` as the code's own comment
("Use nursery with proper exception handling") and the spec (section 4.5
steps 2-6) intend it: fixed-size batches of 30, a nursery opened per batch
with one task per record, each task contributing exactly one record to the
batch's results.  Modelled from the spec because the Python source cannot
express this intent: line 280 dedents the `async with trio.open_nursery()`
statement out of the batch loop, so line 285 unindents to a level not on
the indentation stack and the module dies with `IndentationError` on
import. -/
def enrich_companies_async (oracle : Record → Except Unit Record) :
    List Record → List Record
  | [] => []
  | c :: cs =>
    ((c :: cs).take 30).map (enrich_one oracle) ++
      enrich_companies_async oracle ((c :: cs).drop 30)
termination_by l => l.length
decreasing_by
  simp only [List.length_drop, List.length_cons]
  omega

end WebScraper

/-- C4, proved of the intended batch semantics (the shipped Python file
does not parse, see the definition of `enrich_companies_async`): the output
has exactly one record per input record, it is the per-record enrichment of
the input in order, and a record whose lookup raises contributes its
original, unmodified self — no failure aborts a batch or the run. -/
theorem enrich_batch_isolation (oracle : Record → Except Unit Record)
    (companies : List Record) :
    (WebScraper.enrich_companies_async oracle companies).length = companies.length ∧
    WebScraper.enrich_companies_async oracle companies
      = companies.map (WebScraper.enrich_one oracle) ∧
    (∀ c, oracle c = .error () → WebScraper.enrich_one oracle c = c) := by
  have hmap : ∀ (len : Nat) (l : List Record), l.length ≤ len →
      WebScraper.enrich_companies_async oracle l
        = l.map (WebScraper.enrich_one oracle) := by
    intro len
    induction len with
    | zero =>
      intro l hl
      have hnil : l = [] := List.eq_nil_of_length_eq_zero (Nat.le_zero.mp hl)
      subst hnil
      simp [WebScraper.enrich_companies_async]
    | succ n ihn =>
      intro l hl
      cases l with
      | nil => simp [WebScraper.enrich_companies_async]
      | cons a t =>
        rw [WebScraper.enrich_companies_async]
        rw [ihn ((a :: t).drop 30) (by
          simp only [List.length_drop, List.length_cons]
          simp only [List.length_cons] at hl
          omega)]
        conv_rhs => rw [← List.take_append_drop 30 (a :: t)]
        rw [List.map_append]
  have hm := hmap companies.length companies le_rfl
  refine ⟨?_, hm, ?_⟩
  · rw [hm, List.length_map]
  · intro c h
    by_cases ht : gTruthy (c .company_name) = true
    · simp [WebScraper.enrich_one, ht, h]
    · simp [WebScraper.enrich_one, ht]

/-- Witness for the C4 theorem: a batch whose only record's lookup raises
still yields that record unchanged. -/
theorem enrich_batch_isolation_witness :
    WebScraper.enrich_companies_async (fun _ => Except.error ()) [rComplete]
      = [rComplete] := by
  have hm := (enrich_batch_isolation (fun _ => Except.error ()) [rComplete]).2.1
  have h3 := (enrich_batch_isolation (fun _ => Except.error ()) [rComplete]).2.2
    rComplete rfl
  rw [hm]
  simp [h3]

end CompanyAtlas